import Mathlib

/-!
Verification development for `generate.py` of the current-capital-site
repository: a static news-page generator that fetches RSS/Atom feeds,
parses them into raw article records, summarises bodies, normalises
publication dates and emits a sorted article list.

The Python source is shallowly embedded: dictionaries become structures,
strings are Lean `String`s (operated on through their character lists),
`datetime` values become a wall-clock integer plus an optional UTC offset,
and the fallible datetime comparison used by the final sort is modelled
with `Option` (a `none` result models the `TypeError` raised by Python
when comparing offset-naive and offset-aware datetimes).
-/

namespace Generate

/-- Whitespace characters recognised by Python `str.strip` and `str.split`
(ASCII subset: space, tab, newline, carriage return, vertical tab, form feed). -/
def pyIsSpace (c : Char) : Bool :=
  c = ' ' || c = '\t' || c = '\n' || c = '\r' || c = '\x0b' || c = '\x0c'

/-- Python `str.strip()` on a character list: drop leading and trailing whitespace. -/
def pyStripL (l : List Char) : List Char :=
  ((l.dropWhile pyIsSpace).reverse.dropWhile pyIsSpace).reverse

/-- Python `str.strip()`. -/
def pyStrip (s : String) : String :=
  ⟨pyStripL s.data⟩

/-- An XML element as produced by `xml.etree.ElementTree`: tag, attributes,
optional text content, and the list of direct children. -/
structure XmlElem where
  tag : String
  attrs : List (String × String)
  text : Option String
  children : List XmlElem

/-- `ElementTree.Element.find(tag)`: first direct child with the given tag. -/
def findChild (e : XmlElem) (t : String) : Option XmlElem :=
  e.children.find? (fun c => c.tag == t)

/-- `ElementTree.Element.findall(tag)`: all direct children with the given tag. -/
def findAllChildren (e : XmlElem) (t : String) : List XmlElem :=
  e.children.filter (fun c => c.tag == t)

/-- `ElementTree.Element.findtext(tag, default)`: text of the first matching
direct child; the default if there is no such child; the empty string if
the child exists but has no text. -/
def findText (e : XmlElem) (t dflt : String) : String :=
  match findChild e t with
  | none => dflt
  | some c => c.text.getD ""

/-- `ElementTree.Element.get(key, default)`: attribute lookup on an element. -/
def attrGet (e : XmlElem) (k dflt : String) : String :=
  match e.attrs.find? (fun p => p.1 == k) with
  | none => dflt
  | some p => p.2

/-- The dictionary yielded per item by `parse_feed`:
title, link, description and publication-date string. -/
structure RawArticle where
  title : String
  link : String
  description : String
  pub_date : String
deriving DecidableEq, Repr

/-- The text handed to `parse_feed` by `build_articles`. `fetch_rss` returns the
empty string on any download failure; non-empty text either parses to a root
element or raises `ParseError` inside `ET.fromstring`. The XML parser itself
is external C code, so its outcome is embedded as this three-way split. -/
inductive FeedXml where
  | empty : FeedXml
  | malformed : String → FeedXml
  | parsed : XmlElem → FeedXml

/-- Field extraction for one `item`/`entry` element in `parse_feed`:
title text stripped; link text stripped, falling back to the `href`
attribute of a `link` child when empty; description falling back to
`content`; `pubDate` falling back to `updated`. -/
def extractItem (item : XmlElem) : RawArticle :=
  let title := pyStrip (findText item "title" "")
  let link0 := pyStrip (findText item "link" "")
  let link :=
    if link0 = "" then
      match findChild item "link" with
      | some le => pyStrip (attrGet le "href" "")
      | none => link0
    else link0
  let desc0 := pyStrip (findText item "description" "")
  let description := if desc0 = "" then pyStrip (findText item "content" "") else desc0
  let pd0 := pyStrip (findText item "pubDate" "")
  let pub_date := if pd0 = "" then pyStrip (findText item "updated" "") else pd0
  { title := title, link := link, description := description, pub_date := pub_date }

/-- `parse_feed`: empty input and XML parse errors give the empty list; otherwise
a two-way shape branch: a `channel` child means RSS (`item` elements), else Atom
(`entry` elements); each element goes through `extractItem`. -/
def parse_feed : FeedXml → List RawArticle
  | .empty => []
  | .malformed _ => []
  | .parsed root =>
    match findChild root "channel" with
    | some channel => (findAllChildren channel "item").map extractItem
    | none => (findAllChildren root "entry").map extractItem

/-- Scan the characters after a `>` sign, returning the remainder after
the first `>` found, or `none` when there is none. -/
def afterGt : List Char → Option (List Char)
  | [] => none
  | c :: cs => if c = '>' then some cs else afterGt cs

/-- Attempt to match the regex `[^>]+>` at the start of the list (the
characters following a `<`): at least one non-`>` character followed by `>`.
Returns the remainder after the match. -/
def dropTag : List Char → Option (List Char)
  | [] => none
  | c :: cs => if c = '>' then none else afterGt cs

/-- Fuel-indexed worker for `re.sub(r"<[^>]+>", "", text)`: at each `<` try to
match a tag span and delete it; on failure keep the character and move on. -/
def stripTagsF : Nat → List Char → List Char
  | 0, l => l
  | _ + 1, [] => []
  | f + 1, c :: cs =>
    if c = '<' then
      match dropTag cs with
      | some rest => stripTagsF f rest
      | none => c :: stripTagsF f cs
    else c :: stripTagsF f cs

/-- `re.sub(r"<[^>]+>", "", text)` on a character list. -/
def stripTagsL (l : List Char) : List Char :=
  stripTagsF l.length l

/-- `html.unescape` modelled for the entities appearing in this development
(`&amp;` `&lt;` `&gt;` `&quot;` `&#39;`); like Python, replacement is a single
left-to-right pass and the produced text is not scanned again. -/
def pyUnescapeL : List Char → List Char
  | '&' :: 'a' :: 'm' :: 'p' :: ';' :: cs => '&' :: pyUnescapeL cs
  | '&' :: 'l' :: 't' :: ';' :: cs => '<' :: pyUnescapeL cs
  | '&' :: 'g' :: 't' :: ';' :: cs => '>' :: pyUnescapeL cs
  | '&' :: 'q' :: 'u' :: 'o' :: 't' :: ';' :: cs => '"' :: pyUnescapeL cs
  | '&' :: '#' :: '3' :: '9' :: ';' :: cs => '\'' :: pyUnescapeL cs
  | c :: cs => c :: pyUnescapeL cs
  | [] => []

/-- Worker for Python `str.split()` (no separator): split on whitespace runs,
discarding empty pieces; `acc` holds the current word reversed. -/
def pySplitAux : List Char → List Char → List (List Char)
  | [], acc => if acc = [] then [] else [acc.reverse]
  | c :: cs, acc =>
    if pyIsSpace c then
      if acc = [] then pySplitAux cs [] else acc.reverse :: pySplitAux cs []
    else pySplitAux cs (c :: acc)

/-- Python `str.split()` with no arguments. -/
def pySplitL (l : List Char) : List (List Char) :=
  pySplitAux l []

/-- Python `" ".join(words)` on character lists. -/
def joinSpaceL : List (List Char) → List Char
  | [] => []
  | [w] => w
  | w :: ws => w ++ ' ' :: joinSpaceL ws

/-- The literal ellipsis appended by `summarise` when the text is truncated. -/
def ellipsisL : List Char := ['.', '.', '.']

/-- The cleaning phase of `summarise`: strip tags first, then unescape entities. -/
def cleanTextL (l : List Char) : List Char :=
  pyUnescapeL (stripTagsL l)

/-- `summarise` on a character list: clean, split into words, keep the first
`maxWords`, rejoin with single spaces, and append `...` when words were dropped. -/
def summariseL (l : List Char) (maxWords : Nat) : List Char :=
  let clean := cleanTextL l
  let words := pySplitL clean
  let summary := joinSpaceL (words.take maxWords)
  if words.length > maxWords then summary ++ ellipsisL else summary

/-- `summarise(text, max_words)` from `generate.py`. -/
def summarise (text : String) (maxWords : Nat) : String :=
  ⟨summariseL text.data maxWords⟩

/-- A Python `datetime` value as used by this program: `wall` is the wall-clock
instant in seconds of the proleptic Gregorian calendar (the field tuple
`(year, month, day, hour, minute, second)` mapped through `toordinal`), and
`offset` is the UTC offset in seconds for offset-aware values, `none` for
naive ones. Naive datetimes compare by wall clock; aware ones compare after
subtracting the offset; and like Python, comparing a naive with an aware
datetime has no result (it raises `TypeError`). -/
structure PyDT where
  wall : Int
  offset : Option Int
deriving DecidableEq, Repr

/-- Gregorian leap-year test, as in Python `datetime`. -/
def isLeap (y : Nat) : Bool :=
  y % 4 == 0 && (y % 100 != 0 || y % 400 == 0)

/-- Days in a month of a given year. -/
def daysInMonth (y m : Nat) : Nat :=
  if m = 2 then (if isLeap y then 29 else 28)
  else if m = 4 || m = 6 || m = 9 || m = 11 then 30
  else 31

/-- Days in the year strictly before month `m` (1-based), ignoring leap days. -/
def daysBeforeMonth (m : Nat) : Nat :=
  [0, 0, 31, 59, 90, 120, 151, 181, 212, 243, 273, 304, 334].getD m 0

/-- Proleptic Gregorian ordinal of a calendar day, matching
`datetime.date.toordinal` (day 1 is 0001-01-01). -/
def toOrdinal (y m d : Nat) : Nat :=
  365 * (y - 1) + (y - 1) / 4 - (y - 1) / 100 + (y - 1) / 400
    + daysBeforeMonth m + (if 2 < m && isLeap y then 1 else 0) + d

/-- Wall-clock seconds of a field tuple. -/
def wallSeconds (y m d h mi s : Nat) : Int :=
  ((toOrdinal y m d - 1) * 86400 + h * 3600 + mi * 60 + s : Nat)

/-- The `datetime` constructor: validates the field ranges (this is where
Python raises `ValueError` for impossible dates such as February 30, which
`build_articles` catches and treats as a failed format). -/
def mkDT (y m d h mi s : Nat) (off : Option Int) : Option PyDT :=
  if 1 ≤ y ∧ y ≤ 9999 ∧ 1 ≤ m ∧ m ≤ 12 ∧ 1 ≤ d ∧ d ≤ daysInMonth y m
      ∧ h ≤ 23 ∧ mi ≤ 59 ∧ s ≤ 59 then
    some ⟨wallSeconds y m d h mi s, off⟩
  else none

/-- Numeric value of an ASCII digit. -/
def digitVal (c : Char) : Option Nat :=
  if c.isDigit then some (c.toNat - 48) else none

/-- Read one or two digits greedily, as the `strptime` patterns for
day/month/hour/minute/second do. -/
def readNum2 : List Char → Option (Nat × List Char)
  | [] => none
  | [c] => (digitVal c).map (fun d => (d, []))
  | c1 :: c2 :: rest =>
    match digitVal c1 with
    | none => none
    | some d1 =>
      match digitVal c2 with
      | none => some (d1, c2 :: rest)
      | some d2 => some (10 * d1 + d2, rest)

/-- Read exactly two digits. -/
def readNum2Exact : List Char → Option (Nat × List Char)
  | c1 :: c2 :: rest => do
    let d1 ← digitVal c1
    let d2 ← digitVal c2
    some (10 * d1 + d2, rest)
  | _ => none

/-- Read exactly four digits, as the `%Y` directive does. -/
def readNum4 : List Char → Option (Nat × List Char)
  | c1 :: c2 :: c3 :: c4 :: rest => do
    let d1 ← digitVal c1
    let d2 ← digitVal c2
    let d3 ← digitVal c3
    let d4 ← digitVal c4
    some (1000 * d1 + 100 * d2 + 10 * d3 + d4, rest)
  | _ => none

/-- Match one literal character. -/
def expectChar (c : Char) : List Char → Option (List Char)
  | [] => none
  | x :: xs => if x = c then some xs else none

/-- Match a literal letter case-insensitively (`strptime` compiles its format
regex with `IGNORECASE`, so literal `T` and `Z` match both cases). -/
def expectCharCI (c : Char) : List Char → Option (List Char)
  | [] => none
  | x :: xs => if x.toLower = c.toLower then some xs else none

/-- Match one or more whitespace characters (a whitespace run in a `strptime`
format becomes the regex `\s+`). -/
def skipSpaces1 : List Char → Option (List Char)
  | [] => none
  | c :: cs =>
    if pyIsSpace c then some (cs.dropWhile pyIsSpace) else none

/-- Lowercased three-letter prefix of the input, with the remainder. -/
def take3Lower : List Char → Option (List Char × List Char)
  | c1 :: c2 :: c3 :: rest => some ([c1.toLower, c2.toLower, c3.toLower], rest)
  | _ => none

/-- The `%a` directive: one of the abbreviated weekday names,
case-insensitively; the parsed weekday is not validated against the date. -/
def readWeekdayAbbrev (l : List Char) : Option (List Char) := do
  let (w, rest) ← take3Lower l
  if ["mon", "tue", "wed", "thu", "fri", "sat", "sun"].any (fun n => n.data == w) then
    some rest
  else none

/-- The `%b` directive: abbreviated month name, case-insensitively, giving the
month number. -/
def readMonthAbbrev (l : List Char) : Option (Nat × List Char) := do
  let (w, rest) ← take3Lower l
  let names := ["jan", "feb", "mar", "apr", "may", "jun",
                "jul", "aug", "sep", "oct", "nov", "dec"]
  match names.findIdx? (fun n => n.data == w) with
  | some i => some (i + 1, rest)
  | none => none

/-- The `%Z` directive: a named zone, matched case-insensitively against the
zone names accepted on a UTC host (`GMT`, `UTC`). It is informational only:
the parsed datetime stays offset-naive. -/
def readZoneName (l : List Char) : Option (List Char) := do
  let (w, rest) ← take3Lower l
  if w == "gmt".data || w == "utc".data then some rest else none

/-- The `%z` directive: `Z` (UTC), or a sign, two hour digits, an optional
colon and two minute digits; yields the offset in seconds. The
`datetime.timezone` constructor requires the magnitude to stay below one day. -/
def readTzOffset : List Char → Option (Int × List Char)
  | 'Z' :: rest => some (0, rest)
  | c :: rest =>
    if c = '+' || c = '-' then do
      let (h, rest) ← readNum2Exact rest
      let rest2 := match rest with
        | ':' :: t => t
        | t => t
      let (m, rest3) ← readNum2Exact rest2
      let secs := h * 3600 + m * 60
      if secs < 86400 then
        some (if c = '-' then (-(secs : Int), rest3) else ((secs : Int), rest3))
      else none
    else none
  | [] => none

/-- `datetime.strptime(s, "%a, %d %b %Y %H:%M:%S %Z")`: the RFC-822-style RSS
date. The named zone is informational, so the result is offset-naive. -/
def strptimeRss (s : String) : Option PyDT := do
  let l := s.data
  let l ← readWeekdayAbbrev l
  let l ← expectChar ',' l
  let l ← skipSpaces1 l
  let (d, l) ← readNum2 l
  let l ← skipSpaces1 l
  let (m, l) ← readMonthAbbrev l
  let l ← skipSpaces1 l
  let (y, l) ← readNum4 l
  let l ← skipSpaces1 l
  let (h, l) ← readNum2 l
  let l ← expectChar ':' l
  let (mi, l) ← readNum2 l
  let l ← expectChar ':' l
  let (sec, l) ← readNum2 l
  let l ← skipSpaces1 l
  let l ← readZoneName l
  if l = [] then mkDT y m d h mi sec none else none

/-- `datetime.strptime(s, "%Y-%m-%dT%H:%M:%SZ")`: ISO-8601 with a literal `Z`
suffix; the literal is not a `%z` directive, so the result is offset-naive. -/
def strptimeIsoZ (s : String) : Option PyDT := do
  let l := s.data
  let (y, l) ← readNum4 l
  let l ← expectChar '-' l
  let (m, l) ← readNum2 l
  let l ← expectChar '-' l
  let (d, l) ← readNum2 l
  let l ← expectCharCI 'T' l
  let (h, l) ← readNum2 l
  let l ← expectChar ':' l
  let (mi, l) ← readNum2 l
  let l ← expectChar ':' l
  let (sec, l) ← readNum2 l
  let l ← expectCharCI 'Z' l
  if l = [] then mkDT y m d h mi sec none else none

/-- `datetime.strptime(s, "%Y-%m-%dT%H:%M:%S%z")`: ISO-8601 with a numeric
offset; the result is offset-aware. -/
def strptimeIsoOff (s : String) : Option PyDT := do
  let l := s.data
  let (y, l) ← readNum4 l
  let l ← expectChar '-' l
  let (m, l) ← readNum2 l
  let l ← expectChar '-' l
  let (d, l) ← readNum2 l
  let l ← expectCharCI 'T' l
  let (h, l) ← readNum2 l
  let l ← expectChar ':' l
  let (mi, l) ← readNum2 l
  let l ← expectChar ':' l
  let (sec, l) ← readNum2 l
  let (off, l) ← readTzOffset l
  if l = [] then mkDT y m d h mi sec (some off) else none

/-- The date-normalisation loop of `build_articles`: nothing is attempted for
the empty string; otherwise the three formats are tried in order and the
first success is kept. -/
def parse_date (s : String) : Option PyDT :=
  if s = "" then none
  else ((strptimeRss s).orElse fun _ =>
         ((strptimeIsoZ s).orElse fun _ => strptimeIsoOff s))

/-- The sort sentinel `datetime.fromtimestamp(0)` substituted for missing
dates: the Unix epoch rendered in local time, modelled for a UTC host as the
naive wall clock 1970-01-01T00:00:00. -/
def epochSentinel : PyDT :=
  ⟨wallSeconds 1970 1 1 0 0 0, none⟩

/-- Python `<` on datetimes: naive pairs compare by wall clock, aware pairs by
instant (wall minus offset), and a mixed pair raises `TypeError`, modelled as
`none`. -/
def pyLt (a b : PyDT) : Option Bool :=
  match a.offset, b.offset with
  | none, none => some (decide (a.wall < b.wall))
  | some x, some y => some (decide (a.wall - x < b.wall - y))
  | _, _ => none

/-- Python `==` restricted to comparable datetimes: both orders of `<` fail. -/
def keyEqB (a b : PyDT) : Bool :=
  decide (pyLt a b = some false ∧ pyLt b a = some false)

/-- The Article dictionary appended by `build_articles`. -/
structure Article where
  title : String
  link : String
  summary : String
  pub_date : Option PyDT
deriving DecidableEq, Repr

/-- The sort key `a["pub_date"] or datetime.fromtimestamp(0)`: a `None`
publication date is replaced by the epoch sentinel. -/
def artKey (a : Article) : PyDT :=
  a.pub_date.getD epochSentinel

/-- The filter of `build_articles`: an item is kept only when both its title
and its link are non-empty. -/
def keepItem (i : RawArticle) : Bool :=
  !(i.title == "" || i.link == "")

/-- Construction of one Article from a kept item: the summary comes from the
description, falling back to the title when the description is empty, and the
publication date goes through the three-format parse. -/
def mkArticle (i : RawArticle) : Article :=
  { title := i.title
  , link := i.link
  , summary := summarise (if i.description == "" then i.title else i.description) 50
  , pub_date := parse_date i.pub_date }

/-- Articles contributed by one fetched feed text. -/
def articlesOfFeed (x : FeedXml) : List Article :=
  ((parse_feed x).filter keepItem).map mkArticle

/-- The combined article list before sorting, in encounter order: feed-list
order, then item order within a feed. -/
def collectArticles (feeds : List FeedXml) : List Article :=
  (feeds.map articlesOfFeed).flatten

/-- Insert one article into an already-sorted (descending) list using Python
datetime comparison on the sort keys; `none` models the `TypeError` Python
raises when a naive and an aware key meet. The element is placed before the
first strictly smaller key, so equal keys keep their encounter order. -/
def insertByKeyDesc (x : Article) : List Article → Option (List Article)
  | [] => some [x]
  | y :: ys =>
    match pyLt (artKey x) (artKey y) with
    | none => none
    | some true => (insertByKeyDesc x ys).map (fun t => y :: t)
    | some false => some (x :: y :: ys)

/-- `articles.sort(key=..., reverse=True)`: a stable descending sort by the
datetime key, failing exactly when the keys mix naive and aware datetimes. -/
def sortByKeyDesc : List Article → Option (List Article)
  | [] => some []
  | x :: xs =>
    match sortByKeyDesc xs with
    | none => none
    | some s => insertByKeyDesc x s

/-- `build_articles`, taking the already-fetched feed texts (the network fetch
is external I/O; its per-URL outcome is the `FeedXml` value). The result is
`none` when the final sort raises `TypeError`. -/
def build_articles (feeds : List FeedXml) : Option (List Article) :=
  sortByKeyDesc (collectArticles feeds)

/-- Descending order between two articles as the sort establishes it: the
Python comparison of the keys terminates and reports the left key not smaller. -/
def keyGe (a b : Article) : Prop :=
  pyLt (artKey a) (artKey b) = some false

theorem pyLt_false_trans {a b c : PyDT}
    (h1 : pyLt a b = some false) (h2 : pyLt b c = some false) :
    pyLt a c = some false := by
  obtain ⟨aw, ao⟩ := a
  obtain ⟨bw, bo⟩ := b
  obtain ⟨cw, co⟩ := c
  cases ao <;> cases bo <;> cases co <;> simp_all [pyLt] <;> omega

theorem pyLt_true_asymm {a b : PyDT}
    (h : pyLt a b = some true) : pyLt b a = some false := by
  obtain ⟨aw, ao⟩ := a
  obtain ⟨bw, bo⟩ := b
  cases ao <;> cases bo <;> simp_all [pyLt] <;> omega

theorem keyEqB_lt {k a b : PyDT}
    (ha : keyEqB a k = true) (hb : keyEqB b k = true) :
    pyLt a b = some false := by
  rw [keyEqB, decide_eq_true_iff] at ha hb
  exact pyLt_false_trans ha.1 hb.2

theorem insertByKeyDesc_perm {x : Article} :
    ∀ {s t : List Article}, insertByKeyDesc x s = some t → t.Perm (x :: s)
  | [], t, h => by
    simp [insertByKeyDesc] at h
    subst h
    exact List.Perm.refl _
  | y :: ys, t, h => by
    rw [insertByKeyDesc] at h
    cases hc : pyLt (artKey x) (artKey y) with
    | none => rw [hc] at h; cases h
    | some b =>
      rw [hc] at h
      cases b with
      | true =>
        simp only [Option.map_eq_some'] at h
        obtain ⟨t', ht', rfl⟩ := h
        exact ((insertByKeyDesc_perm ht').cons y).trans (List.Perm.swap x y ys)
      | false =>
        simp only [Option.some_inj] at h
        subst h
        exact List.Perm.refl _

theorem insertByKeyDesc_pairwise {x : Article} :
    ∀ {s t : List Article}, s.Pairwise keyGe → insertByKeyDesc x s = some t →
      t.Pairwise keyGe
  | [], t, _, h => by
    simp [insertByKeyDesc] at h
    subst h
    simp
  | y :: ys, t, hs, h => by
    rw [insertByKeyDesc] at h
    rw [List.pairwise_cons] at hs
    cases hc : pyLt (artKey x) (artKey y) with
    | none => rw [hc] at h; cases h
    | some b =>
      rw [hc] at h
      cases b with
      | true =>
        simp only [Option.map_eq_some'] at h
        obtain ⟨t', ht', rfl⟩ := h
        rw [List.pairwise_cons]
        refine ⟨?_, insertByKeyDesc_pairwise hs.2 ht'⟩
        intro z hz
        rcases List.mem_cons.1 (((insertByKeyDesc_perm ht').mem_iff).1 hz) with hzx | hzys
        · subst hzx; exact pyLt_true_asymm hc
        · exact hs.1 z hzys
      | false =>
        simp only [Option.some_inj] at h
        subst h
        rw [List.pairwise_cons]
        refine ⟨?_, List.pairwise_cons.2 hs⟩
        intro z hz
        rcases List.mem_cons.1 hz with hzy | hzys
        · subst hzy; exact hc
        · exact pyLt_false_trans hc (hs.1 z hzys)

theorem insertByKeyDesc_filter {x : Article} (q : Article → Bool)
    (hq : ∀ y, q x = true → q y = true → pyLt (artKey x) (artKey y) = some false) :
    ∀ {s t : List Article}, insertByKeyDesc x s = some t →
      t.filter q = (if q x then [x] else []) ++ s.filter q
  | [], t, h => by
    simp [insertByKeyDesc] at h
    subst h
    cases hx : q x <;> simp [List.filter, hx]
  | y :: ys, t, h => by
    rw [insertByKeyDesc] at h
    cases hc : pyLt (artKey x) (artKey y) with
    | none => rw [hc] at h; cases h
    | some b =>
      rw [hc] at h
      cases b with
      | true =>
        simp only [Option.map_eq_some'] at h
        obtain ⟨t', ht', rfl⟩ := h
        have ih := insertByKeyDesc_filter q hq ht'
        cases hx : q x with
        | true =>
          have hy : q y = false := by
            cases hy : q y with
            | true => exact absurd (hq y hx hy) (by simp [hc])
            | false => rfl
          simp only [List.filter, hy, hx] at ih ⊢
          simpa [hx] using ih
        | false =>
          cases hy : q y <;> simp only [List.filter, hy, hx] at ih ⊢ <;>
            simpa [hx] using ih
      | false =>
        simp only [Option.some_inj] at h
        subst h
        cases hx : q x <;> simp [List.filter, hx]

theorem sortByKeyDesc_perm :
    ∀ {l out : List Article}, sortByKeyDesc l = some out → out.Perm l
  | [], out, h => by
    simp [sortByKeyDesc] at h
    subst h
    exact List.Perm.refl _
  | x :: xs, out, h => by
    rw [sortByKeyDesc] at h
    cases hs : sortByKeyDesc xs with
    | none => rw [hs] at h; cases h
    | some s =>
      rw [hs] at h
      exact (insertByKeyDesc_perm h).trans ((sortByKeyDesc_perm hs).cons x)

theorem sortByKeyDesc_pairwise :
    ∀ {l out : List Article}, sortByKeyDesc l = some out → out.Pairwise keyGe
  | [], out, h => by
    simp [sortByKeyDesc] at h
    subst h
    simp
  | x :: xs, out, h => by
    rw [sortByKeyDesc] at h
    cases hs : sortByKeyDesc xs with
    | none => rw [hs] at h; cases h
    | some s =>
      rw [hs] at h
      exact insertByKeyDesc_pairwise (sortByKeyDesc_pairwise hs) h

theorem sortByKeyDesc_filter (q : Article → Bool)
    (hq : ∀ a b, q a = true → q b = true → pyLt (artKey a) (artKey b) = some false) :
    ∀ {l out : List Article}, sortByKeyDesc l = some out →
      out.filter q = l.filter q
  | [], out, h => by
    simp [sortByKeyDesc] at h
    subst h
    rfl
  | x :: xs, out, h => by
    rw [sortByKeyDesc] at h
    cases hs : sortByKeyDesc xs with
    | none => rw [hs] at h; cases h
    | some s =>
      rw [hs] at h
      have hins := insertByKeyDesc_filter q (fun y => hq x y) h
      have ih := sortByKeyDesc_filter q hq hs
      rw [hins, ih]
      cases hx : q x <;> simp [List.filter, hx]

theorem collectArticles_append (a b : List FeedXml) :
    collectArticles (a ++ b) = collectArticles a ++ collectArticles b := by
  simp [collectArticles]

theorem collectArticles_eq (feeds : List FeedXml) :
    collectArticles feeds
      = ((feeds.map parse_feed).flatten.filter keepItem).map mkArticle := by
  induction feeds with
  | nil => rfl
  | cons f fs ih =>
    simp only [collectArticles, List.map_cons, List.flatten_cons,
      List.filter_append, List.map_append] at *
    rw [ih]
    rfl

/-- A leaf element with text content only. -/
def xText (tag txt : String) : XmlElem :=
  ⟨tag, [], some txt, []⟩

/-- An RSS 2.0 `item` element with text-content title, link, description
and `pubDate` children. -/
def itemWith (t l d p : String) : XmlElem :=
  ⟨"item", [], none,
    [xText "title" t, xText "link" l, xText "description" d, xText "pubDate" p]⟩

/-- An Atom `entry` element with an `href`-attribute link, a `content` body
and an `updated` timestamp. -/
def entryWith (t l d p : String) : XmlElem :=
  ⟨"entry", [], none,
    [xText "title" t, ⟨"link", [("href", l)], none, []⟩,
     xText "content" d, xText "updated" p]⟩

/-- An RSS 2.0 document: a `channel` container holding the items. -/
def rssFeedOf (items : List XmlElem) : XmlElem :=
  ⟨"rss", [], none, [⟨"channel", [], none, items⟩]⟩

/-- An Atom document: entries directly under the feed root. -/
def atomFeedOf (entries : List XmlElem) : XmlElem :=
  ⟨"feed", [], none, entries⟩

/-- C1: the claim states that `build_articles` never raises and that the mixed
aware/naive timestamp comparison during the final sort is handled. It is not:
a feed item whose date parses through the numeric-offset ISO format yields an
offset-aware datetime, an item with an unparseable date gets the offset-naive
epoch sentinel as its sort key, and Python's sort then raises `TypeError` when
it compares the two (modelled here by the sort returning `none`). -/
theorem build_articles_mixed_aware_naive_raises :
    build_articles
      [.parsed (atomFeedOf
        [entryWith "Aware" "http://a.example/1" "story a" "2024-05-01T10:00:00+0200",
         entryWith "Undated" "http://a.example/2" "story b" "soon"])] = none := by
  decide

/-- C2 counterexample: an article with an unknown date does not always sort
after all articles with known timestamps. The sentinel substituted for a
missing date is the Unix epoch, not the minimum timestamp, so an article
dated 1968 (before the epoch) sorts after the unknown-date article. -/
theorem unknown_date_not_last_counterexample :
    build_articles
      [.parsed (rssFeedOf
        [itemWith "Known" "http://k.example" "k body" "Tue, 02 Jan 1968 00:00:00 GMT",
         itemWith "Unknown" "http://u.example" "u body" "unknown"])]
    = some [mkArticle ⟨"Unknown", "http://u.example", "u body", "unknown"⟩,
            mkArticle ⟨"Known", "http://k.example", "k body", "Tue, 02 Jan 1968 00:00:00 GMT"⟩]
    ∧ (mkArticle ⟨"Unknown", "http://u.example", "u body", "unknown"⟩).pub_date = none
    ∧ (mkArticle ⟨"Known", "http://k.example", "k body",
         "Tue, 02 Jan 1968 00:00:00 GMT"⟩).pub_date ≠ none := by
  exact ⟨by decide, by decide, by decide⟩

/-- C2 amended: when the final sort completes, `build_articles` returns a
permutation of the collected articles in descending key order, where the key
of an unknown-date article is the Unix-epoch sentinel; consequently an
unknown-date article appears after every article whose parsed timestamp is
later than the epoch (but pre-epoch timestamps sort after it). -/
theorem build_articles_sorted_desc (feeds : List FeedXml) (out : List Article)
    (h : build_articles feeds = some out) :
    out.Perm (collectArticles feeds)
    ∧ out.Pairwise keyGe
    ∧ (∀ a ∈ out, a.pub_date = none → artKey a = epochSentinel)
    ∧ out.Pairwise (fun a b =>
        ¬(a.pub_date = none ∧ ∃ d, b.pub_date = some d ∧ d.offset = none
            ∧ epochSentinel.wall < d.wall)) := by
  have hp := sortByKeyDesc_pairwise h
  refine ⟨sortByKeyDesc_perm h, hp, ?_, ?_⟩
  · intro a _ hnone
    simp [artKey, hnone]
  · refine hp.imp ?_
    intro a b hk
    rintro ⟨ha, d, hb, hoff, hgt⟩
    rw [keyGe] at hk
    simp only [artKey, ha, hb, Option.getD_some, Option.getD_none, pyLt, hoff,
      epochSentinel, Option.some_inj] at hk
    rw [decide_eq_false_iff_not] at hk
    exact hk hgt

/-- Concrete feeds for the C2 witness: timestamps T1 greater than T2, both after
the epoch, plus one unknown-date article. -/
def c2wFeeds : List FeedXml :=
  [.parsed (rssFeedOf
    [itemWith "T2" "http://w.example/2" "older" "Mon, 01 Jan 2024 00:00:00 GMT",
     itemWith "U" "http://w.example/u" "undated" "someday",
     itemWith "T1" "http://w.example/1" "newer" "Tue, 02 Jan 2024 00:00:00 GMT"])]

/-- The output list of `build_articles` on the C2 witness feeds. -/
def c2wOut : List Article :=
  (build_articles c2wFeeds).getD []

theorem build_articles_sorted_desc_witness :
    c2wOut.Perm (collectArticles c2wFeeds)
    ∧ c2wOut.Pairwise keyGe
    ∧ (∀ a ∈ c2wOut, a.pub_date = none → artKey a = epochSentinel)
    ∧ c2wOut.Pairwise (fun a b =>
        ¬(a.pub_date = none ∧ ∃ d, b.pub_date = some d ∧ d.offset = none
            ∧ epochSentinel.wall < d.wall)) :=
  build_articles_sorted_desc c2wFeeds c2wOut (by decide)

/-- C4: with `max_words = 50`, `summarise` returns the words of the cleaned
text joined by single spaces when there are at most 50 of them; the first 50
words followed directly by an ellipsis when there are more; and the empty
string on empty input. -/
theorem summarise_fifty_words (text : String) :
    ((pySplitL (cleanTextL text.data)).length ≤ 50 →
      summarise text 50 = ⟨joinSpaceL (pySplitL (cleanTextL text.data))⟩)
    ∧ ((pySplitL (cleanTextL text.data)).length > 50 →
      summarise text 50
        = ⟨joinSpaceL ((pySplitL (cleanTextL text.data)).take 50) ++ ellipsisL⟩)
    ∧ (text = "" → summarise text 50 = "") := by
  refine ⟨?_, ?_, ?_⟩
  · intro hle
    simp only [summarise, summariseL]
    rw [if_neg (by omega), List.take_of_length_le hle]
  · intro hgt
    simp only [summarise, summariseL]
    rw [if_pos hgt]
  · intro he
    subst he
    decide

/-- A 51-word text exercising the truncation branch of `summarise`. -/
def c4Long : String :=
  "w w w w w w w w w w w w w w w w w w w w w w w w w w w w w w w w w w w w w w w w w w w w w w w w w w w"

theorem summarise_fifty_words_witness :
    summarise "alpha beta" 50 = ⟨joinSpaceL (pySplitL (cleanTextL "alpha beta".data))⟩
    ∧ summarise c4Long 50
        = ⟨joinSpaceL ((pySplitL (cleanTextL c4Long.data)).take 50) ++ ellipsisL⟩
    ∧ summarise "" 50 = "" :=
  ⟨(summarise_fifty_words "alpha beta").1 (by decide),
   (summarise_fifty_words c4Long).2.1 (by decide),
   (summarise_fifty_words "").2.2 rfl⟩

/-- C9: `summarise` strips tag spans first and decodes HTML entities second
(`cleanTextL` is exactly that composition); on the spec's example the tags are
removed and the entity decoded. -/
theorem summarise_strips_then_unescapes :
    summarise "<b>Markets</b> rally &amp; climb" 50 = "Markets rally & climb"
    ∧ ∀ l, cleanTextL l = pyUnescapeL (stripTagsL l) :=
  ⟨by decide, fun _ => rfl⟩

/-- C10: because entities are decoded after tag stripping, an entity-encoded
tag survives into the summary as a literal tag: the tag-stripping pass, had it
run on the decoded text, would have removed it. -/
theorem summarise_entity_encoded_tag_survives :
    summarise "&lt;script&gt;alert(1)&lt;/script&gt;" 50 = "<script>alert(1)</script>"
    ∧ stripTagsL "<script>alert(1)</script>".data = "alert(1)".data :=
  ⟨by decide, by decide⟩

/-- Feeds for the C3 counterexample: both items qualify (non-empty title and
non-empty link), one date parses offset-aware and the other not at all. -/
def c3cFeeds : List FeedXml :=
  [.parsed (atomFeedOf
    [entryWith "Qual1" "http://c3c.example/1" "body one" "2023-11-20T08:15:00+0100",
     entryWith "Qual2" "http://c3c.example/2" "body two" "later"])]

/-- C3 counterexample: the claim promises one Article per qualifying item for
every valid feed input, but on this valid feed with two qualifying items
`build_articles` produces no article list at all: the aware key of the first
item meets the naive epoch sentinel of the second in the final sort and the
comparison raises `TypeError` (modelled as `none`), so two qualifying items
yield zero Articles. -/
theorem valid_items_without_articles_counterexample :
    build_articles c3cFeeds = none
    ∧ ((c3cFeeds.map parse_feed).flatten.filter keepItem).length = 2 := by
  exact ⟨by decide, by decide⟩

/-- C3 amended: whenever `build_articles` completes (its final sort does not
raise on mixed aware/naive keys), its output is exactly one Article per
parsed item that has both a non-empty title and a non-empty link (a
permutation of their images, so N qualifying items give N Articles), and every
produced Article has a non-empty title and link (items missing either are
silently excluded); on inputs where the sort raises, no Articles are produced
at all. -/
theorem build_articles_one_per_valid_item (feeds : List FeedXml) (out : List Article)
    (h : build_articles feeds = some out) :
    out.Perm (((feeds.map parse_feed).flatten.filter keepItem).map mkArticle)
    ∧ out.length = ((feeds.map parse_feed).flatten.filter keepItem).length
    ∧ ∀ a ∈ out, a.title ≠ "" ∧ a.link ≠ "" := by
  have hperm : out.Perm (((feeds.map parse_feed).flatten.filter keepItem).map mkArticle) := by
    rw [← collectArticles_eq]
    exact sortByKeyDesc_perm h
  refine ⟨hperm, hperm.length_eq.trans (List.length_map _ _), ?_⟩
  intro a ha
  have := hperm.mem_iff.1 ha
  obtain ⟨i, hi, rfl⟩ := List.mem_map.1 this
  have hk := (List.mem_filter.1 hi).2
  rw [keepItem] at hk
  simp only [Bool.not_eq_eq_eq_not, Bool.not_true, Bool.or_eq_false_iff, beq_eq_false_iff_ne,
    ne_eq] at hk
  exact ⟨hk.1, hk.2⟩

/-- Concrete feeds for the C3 witness: three items with title and link, one
missing its title, one missing its link. -/
def c3wFeeds : List FeedXml :=
  [.parsed (rssFeedOf
    [itemWith "One" "http://c3.example/1" "b1" "Wed, 03 Jan 2024 08:00:00 GMT",
     itemWith "" "http://c3.example/none" "no title" "Wed, 03 Jan 2024 09:00:00 GMT",
     itemWith "Two" "http://c3.example/2" "b2" ""]),
   .parsed (atomFeedOf
    [entryWith "Three" "http://c3.example/3" "b3" "2024-01-03T10:00:00Z",
     entryWith "NoLink" "" "no link" "2024-01-03T11:00:00Z"])]

/-- The output list of `build_articles` on the C3 witness feeds. -/
def c3wOut : List Article :=
  (build_articles c3wFeeds).getD []

theorem build_articles_one_per_valid_item_witness :
    c3wOut.Perm (((c3wFeeds.map parse_feed).flatten.filter keepItem).map mkArticle)
    ∧ c3wOut.length = ((c3wFeeds.map parse_feed).flatten.filter keepItem).length
    ∧ ∀ a ∈ c3wOut, a.title ≠ "" ∧ a.link ≠ "" :=
  build_articles_one_per_valid_item c3wFeeds c3wOut (by decide)

/-- Unfolding of `collectArticles` over a cons cell. -/
theorem collectArticles_cons (f : FeedXml) (fs : List FeedXml) :
    collectArticles (f :: fs) = articlesOfFeed f ++ collectArticles fs := rfl

/-- C5: empty and malformed feed texts parse to the empty sequence without
raising, so a failing feed contributes zero articles to `build_articles`
while leaving every other feed's contribution unchanged. -/
theorem feed_failure_isolated :
    parse_feed .empty = []
    ∧ (∀ s, parse_feed (.malformed s) = [])
    ∧ (∀ pre post, build_articles (pre ++ FeedXml.empty :: post)
        = build_articles (pre ++ post))
    ∧ (∀ s pre post, build_articles (pre ++ FeedXml.malformed s :: post)
        = build_articles (pre ++ post)) := by
  refine ⟨rfl, fun _ => rfl, ?_, ?_⟩
  · intro pre post
    rw [build_articles, build_articles, collectArticles_append, collectArticles_append,
      collectArticles_cons]
    rfl
  · intro s pre post
    rw [build_articles, build_articles, collectArticles_append, collectArticles_append,
      collectArticles_cons]
    rfl

/-- C6 counterexample: an article whose date matches none of the patterns is
still included, but not always sorted last: with a known pre-epoch date in the
same run, the unknown-date article (keyed by the epoch sentinel) comes first. -/
theorem unparseable_date_not_sorted_last :
    build_articles
      [.parsed (rssFeedOf
        [itemWith "PreEpoch" "http://c6.example/pre" "p body" "Mon, 01 Jan 1968 09:30:00 GMT",
         itemWith "NoDate" "http://c6.example/nod" "n body" "not-a-date"])]
    = some [mkArticle ⟨"NoDate", "http://c6.example/nod", "n body", "not-a-date"⟩,
            mkArticle ⟨"PreEpoch", "http://c6.example/pre", "p body",
              "Mon, 01 Jan 1968 09:30:00 GMT"⟩]
    ∧ parse_date "not-a-date" = none
    ∧ parse_date "Mon, 01 Jan 1968 09:30:00 GMT" ≠ none := by
  exact ⟨by decide, by decide, by decide⟩

/-- C6 amended: date normalisation tries exactly the three formats in order
(RFC-822-style RSS date, ISO-8601 with Z suffix, ISO-8601 with numeric
offset) and keeps the first success; an empty or unmatched string yields
`none` rather than an error, and such an item is still included in the
collected list, carrying the epoch sentinel as its sort key (so it sorts
after timestamps later than the epoch, not unconditionally last). -/
theorem parse_date_three_formats :
    parse_date "" = none
    ∧ (∀ s, s ≠ "" → parse_date s
        = ((strptimeRss s).orElse fun _ =>
            ((strptimeIsoZ s).orElse fun _ => strptimeIsoOff s)))
    ∧ (∀ s d, strptimeRss s = some d → parse_date s = some d)
    ∧ (∀ s, strptimeRss s = none → strptimeIsoZ s = none → strptimeIsoOff s = none →
        parse_date s = none)
    ∧ (∀ x i, i ∈ parse_feed x → keepItem i = true → parse_date i.pub_date = none →
        mkArticle i ∈ collectArticles [x]
        ∧ (mkArticle i).pub_date = none
        ∧ artKey (mkArticle i) = epochSentinel) := by
  refine ⟨rfl, ?_, ?_, ?_, ?_⟩
  · intro s hs
    rw [parse_date, if_neg hs]
  · intro s d hd
    have hs : s ≠ "" := by
      intro he
      subst he
      rw [show strptimeRss "" = none from rfl] at hd
      cases hd
    rw [parse_date, if_neg hs, hd]
    rfl
  · intro s h1 h2 h3
    by_cases hs : s = ""
    · subst hs; rfl
    · rw [parse_date, if_neg hs, h1, h2, h3]
      rfl
  · intro x i hi hk hpd
    refine ⟨?_, ?_, ?_⟩
    · rw [collectArticles_cons]
      refine List.mem_append.2 (Or.inl ?_)
      rw [articlesOfFeed]
      exact List.mem_map.2 ⟨i, List.mem_filter.2 ⟨hi, hk⟩, rfl⟩
    · simp [mkArticle, hpd]
    · simp [artKey, mkArticle, hpd]

/-- A feed holding one valid item with an unparseable date, for the C6 witness. -/
def c6wFeed : FeedXml :=
  .parsed (rssFeedOf [itemWith "Tale" "http://c6w.example" "t body" "never"])

theorem parse_date_three_formats_witness :
    parse_date "x"
      = ((strptimeRss "x").orElse fun _ =>
          ((strptimeIsoZ "x").orElse fun _ => strptimeIsoOff "x"))
    ∧ parse_date "Fri, 05 Jan 2024 08:00:00 GMT" = some ⟨wallSeconds 2024 1 5 8 0 0, none⟩
    ∧ parse_date "never" = none
    ∧ (mkArticle ⟨"Tale", "http://c6w.example", "t body", "never"⟩
          ∈ collectArticles [c6wFeed]
        ∧ (mkArticle ⟨"Tale", "http://c6w.example", "t body", "never"⟩).pub_date = none
        ∧ artKey (mkArticle ⟨"Tale", "http://c6w.example", "t body", "never"⟩)
            = epochSentinel) :=
  ⟨parse_date_three_formats.2.1 "x" (by decide),
   parse_date_three_formats.2.2.1 "Fri, 05 Jan 2024 08:00:00 GMT" _ (by decide),
   parse_date_three_formats.2.2.2.1 "never" (by decide) (by decide) (by decide),
   parse_date_three_formats.2.2.2.2 c6wFeed
     ⟨"Tale", "http://c6w.example", "t body", "never"⟩
     (by decide) (by decide) (by decide)⟩

/-- C8: the final sort is stable: for any key value, the articles carrying
that key appear in the output in exactly their encounter order (feed-list
order, then item order), both for equal parsed timestamps and for
unknown-date articles, which all share the sentinel key. -/
theorem build_articles_sort_stable (feeds : List FeedXml) (out : List Article)
    (h : build_articles feeds = some out) (k : PyDT) :
    out.filter (fun a => keyEqB (artKey a) k)
      = (collectArticles feeds).filter (fun a => keyEqB (artKey a) k) :=
  sortByKeyDesc_filter _ (fun _ _ ha hb => keyEqB_lt ha hb) h

/-- Concrete feeds for the C8 witness: two pairs of articles sharing a key
(one pair with equal known timestamps, one pair undated). -/
def c8wFeeds : List FeedXml :=
  [.parsed (rssFeedOf
    [itemWith "EqA" "http://c8.example/a" "a" "Thu, 04 Jan 2024 12:00:00 GMT",
     itemWith "UndatedA" "http://c8.example/ua" "ua" "sometime"]),
   .parsed (rssFeedOf
    [itemWith "EqB" "http://c8.example/b" "b" "Thu, 04 Jan 2024 12:00:00 GMT",
     itemWith "UndatedB" "http://c8.example/ub" "ub" ""])]

/-- The output list of `build_articles` on the C8 witness feeds. -/
def c8wOut : List Article :=
  (build_articles c8wFeeds).getD []

theorem build_articles_sort_stable_witness :
    c8wOut.filter (fun a => keyEqB (artKey a) epochSentinel)
      = (collectArticles c8wFeeds).filter (fun a => keyEqB (artKey a) epochSentinel) :=
  build_articles_sort_stable c8wFeeds c8wOut (by decide) epochSentinel

theorem parse_feed_rss (items : List XmlElem) :
    parse_feed (.parsed (rssFeedOf items))
      = (items.filter fun c => c.tag == "item").map extractItem := rfl

theorem extract_entry_eq_item (t l d p : String) :
    extractItem (entryWith t l d p) = extractItem (itemWith t l d p) := by
  simp only [extractItem, entryWith, itemWith, xText, findText, findChild, attrGet,
    List.find?]
  norm_num
  by_cases hl : pyStrip l = "" <;> by_cases hd : pyStrip d = "" <;>
    by_cases hp : pyStrip p = "" <;>
    simp [hl, hd, hp, show pyStrip "" = "" from rfl]

theorem find_channel_atom (ts : List (String × String × String × String)) :
    findChild (atomFeedOf (ts.map fun q => entryWith q.1 q.2.1 q.2.2.1 q.2.2.2))
      "channel" = none := by
  induction ts with
  | nil => rfl
  | cons q qs ih =>
    simp only [findChild, atomFeedOf, entryWith, List.map_cons, List.find?] at ih ⊢
    simp only [show (("entry" : String) == "channel") = false from rfl] at ih ⊢
    exact ih

theorem filter_entry_tags (ts : List (String × String × String × String)) :
    ((ts.map fun q => entryWith q.1 q.2.1 q.2.2.1 q.2.2.2).filter
        fun c => c.tag == "entry")
      = ts.map fun q => entryWith q.1 q.2.1 q.2.2.1 q.2.2.2 := by
  induction ts with
  | nil => rfl
  | cons q qs ih =>
    have ht : ((entryWith q.1 q.2.1 q.2.2.1 q.2.2.2).tag == "entry") = true := rfl
    simp only [List.map_cons, List.filter_cons, ht, if_true]
    rw [ih]

theorem filter_item_tags (ts : List (String × String × String × String)) :
    ((ts.map fun q => itemWith q.1 q.2.1 q.2.2.1 q.2.2.2).filter
        fun c => c.tag == "item")
      = ts.map fun q => itemWith q.1 q.2.1 q.2.2.1 q.2.2.2 := by
  induction ts with
  | nil => rfl
  | cons q qs ih =>
    have ht : ((itemWith q.1 q.2.1 q.2.2.1 q.2.2.2).tag == "item") = true := rfl
    simp only [List.map_cons, List.filter_cons, ht, if_true]
    rw [ih]

theorem parse_feed_atom (ts : List (String × String × String × String)) :
    parse_feed (.parsed (atomFeedOf (ts.map fun q => entryWith q.1 q.2.1 q.2.2.1 q.2.2.2)))
      = (ts.map fun q => entryWith q.1 q.2.1 q.2.2.1 q.2.2.2).map extractItem := by
  rw [parse_feed, find_channel_atom]
  rw [show findAllChildren
      (atomFeedOf (ts.map fun q => entryWith q.1 q.2.1 q.2.2.1 q.2.2.2)) "entry"
      = (ts.map fun q => entryWith q.1 q.2.1 q.2.2.1 q.2.2.2).filter
          (fun c => c.tag == "entry") from rfl]
  rw [filter_entry_tags]

/-- C7: `parse_feed` detects the shape with a single two-way branch (a
`channel` child means items from `item` elements, otherwise `entry`
elements); per element the extraction applies the trim-and-fallback chains
written out in the first conjunct, absent fields default to the empty string,
and an Atom-shaped input parses to exactly the RawArticles of the
corresponding RSS-shaped input. -/
theorem parse_feed_shape_and_equivalence :
    (∀ item, extractItem item =
      { title := pyStrip (findText item "title" "")
      , link :=
          if pyStrip (findText item "link" "") = "" then
            match findChild item "link" with
            | some le => pyStrip (attrGet le "href" "")
            | none => pyStrip (findText item "link" "")
          else pyStrip (findText item "link" "")
      , description :=
          if pyStrip (findText item "description" "") = "" then
            pyStrip (findText item "content" "")
          else pyStrip (findText item "description" "")
      , pub_date :=
          if pyStrip (findText item "pubDate" "") = "" then
            pyStrip (findText item "updated" "")
          else pyStrip (findText item "pubDate" "") })
    ∧ (∀ root channel, findChild root "channel" = some channel →
        parse_feed (.parsed root) = (findAllChildren channel "item").map extractItem)
    ∧ (∀ root, findChild root "channel" = none →
        parse_feed (.parsed root) = (findAllChildren root "entry").map extractItem)
    ∧ (∀ ts : List (String × String × String × String),
        parse_feed (.parsed (atomFeedOf
            (ts.map fun q => entryWith q.1 q.2.1 q.2.2.1 q.2.2.2)))
          = parse_feed (.parsed (rssFeedOf
              (ts.map fun q => itemWith q.1 q.2.1 q.2.2.1 q.2.2.2))))
    ∧ extractItem ⟨"item", [], none, []⟩ = ⟨"", "", "", ""⟩ := by
  refine ⟨fun item => rfl, ?_, ?_, ?_, by decide⟩
  · intro root channel hc
    rw [parse_feed, hc]
  · intro root hc
    rw [parse_feed, hc]
  · intro ts
    rw [parse_feed_atom, parse_feed_rss, filter_item_tags, List.map_map, List.map_map]
    exact List.map_congr_left fun (q : String × String × String × String) _ =>
      extract_entry_eq_item q.1 q.2.1 q.2.2.1 q.2.2.2

/-- A one-item RSS document for the C7 witness. -/
def c7wItem : XmlElem :=
  itemWith "Alpha" "http://c7.example/a" "a body" "Sat, 06 Jan 2024 10:00:00 GMT"

/-- A one-entry Atom document for the C7 witness. -/
def c7wEntry : XmlElem :=
  entryWith "Beta" "http://c7.example/b" "b body" "2024-01-06T11:00:00Z"

theorem parse_feed_shape_and_equivalence_witness :
    parse_feed (.parsed (rssFeedOf [c7wItem]))
      = (findAllChildren ⟨"channel", [], none, [c7wItem]⟩ "item").map extractItem
    ∧ parse_feed (.parsed (atomFeedOf [c7wEntry]))
      = (findAllChildren (atomFeedOf [c7wEntry]) "entry").map extractItem :=
  ⟨parse_feed_shape_and_equivalence.2.1 (rssFeedOf [c7wItem])
      ⟨"channel", [], none, [c7wItem]⟩ rfl,
   parse_feed_shape_and_equivalence.2.2.1 (atomFeedOf [c7wEntry]) rfl⟩

end Generate
